import Mathlib

/-!
Shallow embedding of the sales-insight-engine audio pipeline.

The definitions below are translated from the TypeScript source:
* `src/lib/audioCompression.ts` (segmenter / WAV encoder),
* `MIRROR_ROOM_FILES/contexts/TranscriptionContext.tsx` (job scheduler,
  retry wrapper, progress model),
* `supabase/functions/transcribe-audio/index.ts` (per-segment server
  handler, base64 transport encoding, transcript reassembly),
* `supabase/functions/analyze-call/index.ts` (analysis handler and
  persistence defaults).

JavaScript numeric primitives are embedded explicitly: `Math.floor` on a
quotient of integers becomes `Int.fdiv`, `Math.round q` becomes
`ratFloor (q + 1/2)` (JS rounds half toward plus infinity), and the
`DataView.setInt16` conversion truncates toward zero and reduces mod 2^16.
-/

namespace SalesInsight

/-- Kernel-computable floor of a rational, as `num / den` with integer
floor division; agrees with `Int.floor` (see `ratFloor_eq_floor`). -/
def ratFloor (q : ℚ) : ℤ := q.num / (q.den : ℤ)

/-- JS `Math.round`: rounds half toward plus infinity, i.e. `⌊q + 1/2⌋`. -/
def jsRound (q : ℚ) : ℤ := ratFloor (q + 1/2)

/-- JS number-to-integer conversion truncates toward zero. -/
def jsTrunc (q : ℚ) : ℤ := if q < 0 then -ratFloor (-q) else ratFloor q

/-- Little-endian bytes written by `DataView.setUint16` (value reduced mod 2^16). -/
def u16le (n : ℕ) : List ℕ := [n % 256, n / 256 % 256]

/-- Little-endian bytes written by `DataView.setUint32` (value reduced mod 2^32). -/
def u32le (n : ℕ) : List ℕ := [n % 256, n / 256 % 256, n / 65536 % 256, n / 16777216 % 256]

/-- JS `Math.min` on two rationals. -/
def jsMinQ (a b : ℚ) : ℚ := if a ≤ b then a else b

/-- JS `Math.max` on two rationals. -/
def jsMaxQ (a b : ℚ) : ℚ := if a ≤ b then b else a

/-- One sample of the WAV data section, from `encodeWavMono16`:
`s` is clamped to [-1, 1], scaled by 0x8000 (negative) or 0x7fff
(non-negative), and written by `setInt16` (truncation, two's complement). -/
def sampleToBytes (s : ℚ) : List ℕ :=
  let c : ℚ := jsMaxQ (-1) (jsMinQ 1 s)
  let v : ℤ := if c < 0 then jsTrunc (c * 32768) else jsTrunc (c * 32767)
  u16le (v % 65536).toNat

/-- WAV container produced by `encodeWavMono16` in `audioCompression.ts`:
a 44-byte RIFF header followed by 16-bit little-endian PCM samples.
The sample rate is taken as an integer (the source passes a positive
JS number); `setUint32` reduces it mod 2^32 via `u32le`. -/
def encodeWavMono16 (samples : List ℚ) (sampleRate : ℤ) : List ℕ :=
  let dataLength : ℕ := 2 * samples.length
  [82, 73, 70, 70] ++ u32le (36 + dataLength) ++
  [87, 65, 86, 69] ++ [102, 109, 116, 32] ++
  u32le 16 ++ u16le 1 ++ u16le 1 ++
  u32le sampleRate.toNat ++ u32le (sampleRate * 2).toNat ++
  u16le 2 ++ u16le 16 ++
  [100, 97, 116, 97] ++ u32le dataLength ++
  samples.flatMap sampleToBytes

/-- Clamp from `audioCompression.ts`: `Math.max(min, Math.min(max, value))`. -/
def clamp (v lo hi : ℤ) : ℤ := max lo (min hi v)

/-- Ceiling division on naturals; equals JS `Math.ceil(a / b)` for `b > 0`. -/
def ceilDiv (a b : ℕ) : ℕ := (a + b - 1) / b

/-- Options of `prepareAudio`, with the source defaults. -/
structure PrepareOptions where
  targetBytes : ℤ := 6 * 1024 * 1024
  sampleRate : ℤ := 16000
  minChunkSeconds : ℤ := 60
  maxChunkSeconds : ℤ := 300

/-- Result type of `prepareAudio` (`PreparedAudio` in the source); files
are represented by their raw byte contents. -/
inductive PreparedAudio
  | single (file : List ℕ) (sampleRate : ℤ)
  | chunked (chunks : List (List ℕ)) (sampleRate : ℤ) (chunkSeconds : ℤ)
deriving DecidableEq

/-- Segment duration computed by `prepareAudio`:
`clamp(Math.floor((targetBytes - 44) / (sampleRate * 2)), min, max)`.
`Int.fdiv` is JS `Math.floor` of the real quotient for a positive divisor. -/
def chunkSecondsOf (opts : PrepareOptions) : ℤ :=
  clamp ((opts.targetBytes - 44).fdiv (opts.sampleRate * 2))
    opts.minChunkSeconds opts.maxChunkSeconds

/-- Samples per chunk: `chunkSeconds * sampleRate`. -/
def chunkSamplesOf (opts : PrepareOptions) : ℕ :=
  (chunkSecondsOf opts * opts.sampleRate).toNat

/-- Core of `prepareAudio` after decoding and resampling: `samples` is the
rendered mono channel data. Splits the PCM into WAV chunks; returns a
`single` file when everything fits in one chunk, else `chunked` with the
slices `samples.subarray(i * chunkSamples, min((i+1) * chunkSamples, length))`
encoded in index order. -/
def prepareAudio (samples : List ℚ) (opts : PrepareOptions) : PreparedAudio :=
  let chunkSamples := chunkSamplesOf opts
  let totalChunks := ceilDiv samples.length chunkSamples
  if totalChunks ≤ 1 then
    .single (encodeWavMono16 samples opts.sampleRate) opts.sampleRate
  else
    .chunked
      ((List.range totalChunks).map fun i =>
        encodeWavMono16 ((samples.drop (i * chunkSamples)).take chunkSamples)
          opts.sampleRate)
      opts.sampleRate (chunkSecondsOf opts)

/-- All segment files of a preparation result: the single file, or the
chunks in index order. -/
def segmentFiles : PreparedAudio → List (List ℕ)
  | .single f _ => [f]
  | .chunked cs _ _ => cs

/-- Whether the result is a `single` file. -/
def isSingle : PreparedAudio → Bool
  | .single _ _ => true
  | .chunked _ _ _ => false

/-- Number of segment files in a preparation result. -/
def numSegments (p : PreparedAudio) : ℕ := (segmentFiles p).length

/-! ## Client-side job scheduler (`MIRROR_ROOM_FILES/contexts/TranscriptionContext.tsx`) -/

/-- JS whitespace characters stripped by `String.prototype.trim`
(ASCII subset; the transcripts under test are ASCII). -/
def isJsWs (c : Char) : Bool :=
  c == ' ' || c == '\t' || c == '\n' || c == '\x0b' || c == '\x0c' || c == '\r'

/-- Character-list core of `jsTrim`. -/
def trimChars (l : List Char) : List Char :=
  ((l.dropWhile isJsWs).reverse.dropWhile isJsWs).reverse

/-- JS `String.prototype.trim`: strips leading and trailing whitespace. -/
def jsTrim (s : String) : String := String.mk (trimChars s.data)

/-- Job lifecycle status (`TranscriptionJob.status`); the compressing and
uploading phases precede `startJob` and are not part of the job loop. -/
inductive JobStatus
  | transcribing
  | analyzing
  | complete
  | error
deriving DecidableEq

/-- One `updateJob` call: the partial record of fields passed to it. -/
structure Update where
  status : Option JobStatus := none
  progress : Option ℤ := none
  currentChunk : Option ℕ := none
  errMsg : Option String := none
deriving DecidableEq

/-- Outcome of `invokeTranscribeWithRetry` for one segment, as observed by
the `startJob` loop: the transcript on success, the thrown message on
failure. -/
inductive SegOutcome
  | ok (t : String)
  | fail (e : String)
deriving DecidableEq

/-- Transcription loop of `startJob` (lines 101-115): for segment `i` of
`total` it first emits `updateJob` with `currentChunk = i + 1` and
`progress = Math.round(((i + 0.5) / total) * 80)`, then awaits the
segment; a failure throws out of the loop. Returns the emitted updates
and either the list of trimmed segment transcripts or the thrown
message. -/
def segLoop (total : ℕ) : ℕ → List SegOutcome → List Update × Except String (List String)
  | _, [] => ([], .ok [])
  | i, o :: rest =>
    let u : Update :=
      { currentChunk := some (i + 1),
        progress := some (jsRound (((i : ℚ) + 1/2) / (total : ℚ) * 80)) }
    match o with
    | .ok t =>
      let r := segLoop total (i + 1) rest
      (u :: r.1, r.2.map fun ps => jsTrim t :: ps)
    | .fail e => ([u], .error e)

/-- Observable outcome of one `startJob` run: the `updateJob` calls in
order, the transcript passed to `onComplete` (if any), and the message
passed to `onError` (if any). -/
structure JobRun where
  updates : List Update
  completedWith : Option String := none
  failedWith : Option String := none
deriving DecidableEq

/-- Whole async body of `startJob` (lines 98-139): run the segment loop;
on success join the non-empty parts with a paragraph separator, emit
`{status analyzing, progress 85}`, run analysis (`ana` is the outcome of
the analyze-call invocation), then either `{status complete, progress 100}`
plus `onComplete(transcript)`, or the catch block
`{status error, error msg}` plus `onError(msg)`. -/
def startJobRun (outcomes : List SegOutcome) (ana : Except String Unit) : JobRun :=
  let total := outcomes.length
  let r := segLoop total 0 outcomes
  match r.2 with
  | .error e =>
    { updates := r.1 ++ [{ status := some .error, errMsg := some e }],
      failedWith := some e }
  | .ok parts =>
    let transcript := String.intercalate "\n\n" (parts.filter fun s => s != "")
    match ana with
    | .error e =>
      { updates := r.1 ++ [{ status := some .analyzing, progress := some 85 },
          { status := some .error, errMsg := some e }],
        failedWith := some e }
    | .ok _ =>
      { updates := r.1 ++ [{ status := some .analyzing, progress := some 85 },
          { status := some .complete, progress := some 100 }],
        completedWith := some transcript }

/-- Progress values emitted across a run, in order. -/
def progressVals (us : List Update) : List ℤ := us.filterMap Update.progress

/-- Progress values emitted by transcription-phase updates (those that
set `currentChunk`). -/
def chunkProgress (u : Update) : Option ℤ :=
  match u.currentChunk with
  | some _ => u.progress
  | none => none

/-- Last status update of a run. -/
def lastStatus (us : List Update) : Option JobStatus :=
  (us.filterMap Update.status).getLast?

/-- Number of segments the loop starts on before stopping (all of them,
or up to and including the first failing one). -/
def attempted : List SegOutcome → ℕ
  | [] => 0
  | .ok _ :: rest => attempted rest + 1
  | .fail _ :: _ => 1

/-- Progress values the spec prescribes for the transcription phase. -/
def expectedProgress (n k : ℕ) : List ℤ :=
  (List.range k).map fun i : ℕ => jsRound (((i : ℚ) + 1/2) / (n : ℚ) * 80)

/-! ## Retry wrapper (`invokeTranscribeWithRetry`, lines 67-78) -/

/-- Loop of `invokeTranscribeWithRetry`: `res i` is the outcome of the
`i`-th invocation of `invokeTranscribe`; `r` counts the remaining loop
iterations (`attempts + 1` in total for `i = 0 .. attempts`). Every
failure stores the error and sleeps `700 * (i + 1)` ms before the next
iteration (the final sleep precedes the throw). Returns the overall
outcome, the number of invocations performed, and the sleeps in order. -/
def retryGo (res : ℕ → Except String String) :
    ℕ → ℕ → Option String → List ℕ → Except String String × ℕ × List ℕ
  | 0, i, lastErr, delays => (.error (lastErr.getD "Transcription failed"), i, delays.reverse)
  | r + 1, i, _lastErr, delays =>
    match res i with
    | .ok t => (.ok t, i + 1, delays.reverse)
    | .error e => retryGo res r (i + 1) (some e) (700 * (i + 1) :: delays)

/-- Embedding of `invokeTranscribeWithRetry(body, attempts)`. -/
def invokeTranscribeWithRetry (res : ℕ → Except String String) (attempts : ℕ) :
    Except String String × ℕ × List ℕ :=
  retryGo res (attempts + 1) 0 none []

/-- Segment outcome the `startJob` loop observes from the retry wrapper. -/
def segOutcomeOf (res : ℕ → Except String String) (attempts : ℕ) : SegOutcome :=
  match (invokeTranscribeWithRetry res attempts).1 with
  | .ok t => .ok t
  | .error e => .fail e

/-! ## Transport encoding (std base64, whole-buffer, RFC 4648 with padding) -/

/-- Standard base64 alphabet. -/
def b64Alphabet : List Char :=
  "ABCDEFGHIJKLMNOPQRSTUVWXYZabcdefghijklmnopqrstuvwxyz0123456789+/".toList

/-- Character for a 6-bit group. -/
def b64Char (n : ℕ) : Char := b64Alphabet.getD n 'A'

/-- Index of a character in the base64 alphabet. -/
def b64Val (c : Char) : ℕ := b64Alphabet.findIdx (· == c)

/-- Whole-buffer base64 encoding of a byte list, as performed by the
`base64Encode` import from the Deno standard library on the full
segment `arrayBuffer` (one pass, single call). -/
def base64Encode : List ℕ → List Char
  | [] => []
  | [a] => [b64Char (a / 4), b64Char (a % 4 * 16), '=', '=']
  | [a, b] => [b64Char (a / 4), b64Char (a % 4 * 16 + b / 16), b64Char (b % 16 * 4), '=']
  | a :: b :: c :: rest =>
    b64Char (a / 4) :: b64Char (a % 4 * 16 + b / 16) ::
    b64Char (b % 16 * 4 + c / 64) :: (b64Char (c % 64) :: base64Encode rest)

/-- Base64 decoding (the mathematical inverse direction used to state
round-tripping of the transport encoding): each 4-character group yields
three bytes, except a final padded group which yields one (`xy==`) or
two (`xyz=`) bytes. -/
def base64Decode : List Char → List ℕ
  | x :: y :: z :: w :: rest =>
    let b1 := b64Val x * 4 + b64Val y / 16
    let b2 := b64Val y % 16 * 16 + b64Val z / 4
    let b3 := b64Val z % 4 * 64 + b64Val w
    if rest.isEmpty then
      if z == '=' then [b1]
      else if w == '=' then [b1, b2]
      else [b1, b2, b3]
    else b1 :: b2 :: (b3 :: base64Decode rest)
  | _ => []

/-! ## Server-side transcribe-audio handler
(`supabase/functions/transcribe-audio/index.ts`, segment loop lines
79-187). The provider HTTP exchange is abstracted as its observable
response; storage download is abstracted as the downloaded bytes. -/

/-- Size limit checked before encoding:
`const MAX_SEGMENT_BYTES = 5 * 1024 * 1024`. -/
def MAX_SEGMENT_BYTES : ℕ := 5 * 1024 * 1024

/-- Typed rendering of the error messages thrown by the segment loop
(the string interpolations of the source carry the same data). -/
inductive SegError
  | downloadFailed
  | tooLarge (size : ℕ)
  | rateLimited
  | authError
  | invalidArgument
  | invalidRequest
  | providerError (status : ℕ) (snippet : String)
  | noTranscript
deriving DecidableEq

/-- Provider response for one segment: an HTTP error with status and
body text, or a 2xx response whose first candidate text is `text`
(`none` when the response carries no
`candidates[0].content.parts[0].text`). -/
inductive ProviderResp
  | httpError (status : ℕ) (body : String)
  | ok (text : Option String)

/-- Externally observable actions of the segment loop. -/
inductive SrvAct
  | download
  | providerRequest (data : List Char)
deriving DecidableEq

/-- JS `String.prototype.includes`, via `splitOn`. -/
def jsIncludes (s pat : String) : Bool := (s.splitOn pat).length ≥ 2

/-- Bounded snippet of a provider error body (lines 172-173). -/
def errSnippet (body : String) : String :=
  if body.length > 200 then body.take 200 ++ "..." else body

/-- Mapping of a non-2xx provider response to a thrown error
(lines 155-174): 429 to rate limit, 403 to auth, 400 to payload
rejection (with an `INVALID_ARGUMENT` refinement), else a generic
provider error with a bounded snippet. -/
def classifyHttpError (status : ℕ) (body : String) : SegError :=
  if status = 429 then .rateLimited
  else if status = 403 then .authError
  else if status = 400 then
    if jsIncludes body "INVALID_ARGUMENT" then .invalidArgument else .invalidRequest
  else .providerError status (errSnippet body)

/-- One iteration of the segment loop (lines 81-185): download, size
check against `MAX_SEGMENT_BYTES`, whole-buffer base64 encoding, provider
request, response classification, and transcript extraction. A present
but empty `text` fails the falsiness check `if (!segmentTranscript)`
exactly like a missing one; a non-empty text is pushed trimmed. Returns
the outcome together with the emitted external actions. -/
def processSegment (bytes : List ℕ) (resp : ProviderResp) :
    Except SegError String × List SrvAct :=
  if bytes.length > MAX_SEGMENT_BYTES then (.error (.tooLarge bytes.length), [.download])
  else
    let b64 := base64Encode bytes
    let acts := [SrvAct.download, SrvAct.providerRequest b64]
    match resp with
    | .httpError status body => (.error (classifyHttpError status body), acts)
    | .ok none => (.error .noTranscript, acts)
    | .ok (some t) => if t = "" then (.error .noTranscript, acts) else (.ok (jsTrim t), acts)

/-- Sequential segment loop: stops at the first failing segment,
otherwise collects the trimmed transcripts in index order. -/
def transcribeSegments : List (List ℕ × ProviderResp) → Except SegError (List String)
  | [] => .ok []
  | (bytes, resp) :: rest =>
    match (processSegment bytes resp).1 with
    | .error e => .error e
    | .ok t => (transcribeSegments rest).map fun ts => t :: ts

/-- Whole-call result of the handler (lines 187-194): the non-empty
trimmed segment transcripts joined with the paragraph separator, in a
success response; any thrown error becomes an error response. -/
def transcribeHandler (segs : List (List ℕ × ProviderResp)) : Except SegError String :=
  (transcribeSegments segs).map fun ts =>
    String.intercalate "\n\n" (ts.filter fun s => s != "")

/-! ## Analyze-call handler (`supabase/functions/analyze-call/index.ts`).
The Gemini call is abstracted as its observable response; `JSON.parse`
plus the code-fence extraction is abstracted as the parse outcome; the
database client is abstracted as the emitted statements. -/

/-- JS value as relevant to the persistence defaults: enough structure
to decide truthiness (`undefined`, `null`, `0` and `""` are falsy;
arrays and objects are truthy). -/
inductive JsVal
  | undef
  | null
  | str (s : String)
  | num (q : ℚ)
  | arr (n : ℕ)
  | obj (n : ℕ)
deriving DecidableEq

/-- JS truthiness. -/
def JsVal.truthy : JsVal → Bool
  | .undef => false
  | .null => false
  | .str s => s != ""
  | .num q => q != 0
  | .arr _ => true
  | .obj _ => true

/-- JS `a || b`. -/
def jsOr (a b : JsVal) : JsVal := if a.truthy then a else b

/-- Top-level fields of a parsed analysis object, as read by the insert
statement (lines 249-268). -/
structure AnalysisParsed where
  outcome : JsVal := .undef
  outcome_score : JsVal := .undef
  executive_summary : JsVal := .undef
  key_strengths : JsVal := .undef
  areas_for_improvement : JsVal := .undef
  missed_opportunities : JsVal := .undef
  cialdini_principles : JsVal := .undef
  pitch_framework_analysis : JsVal := .undef
  persuasion_techniques : JsVal := .undef
  revival_strategies : JsVal := .undef
  follow_up_script : JsVal := .undef
  key_moments : JsVal := .undef
  client_objections : JsVal := .undef
deriving DecidableEq

/-- Row inserted into `call_analyses` (lines 249-268): falsy `outcome`
defaults to `'unclear'`, falsy `outcome_score` to `50`, falsy
collections to `[]`, and falsy `pitch_framework_analysis` and
`follow_up_script` to `null`; `executive_summary` has no default. -/
structure AnalysisRow where
  call_id : String
  user_id : String
  transcript : String
  outcome : JsVal
  outcome_score : JsVal
  executive_summary : JsVal
  key_strengths : JsVal
  areas_for_improvement : JsVal
  missed_opportunities : JsVal
  cialdini_principles : JsVal
  pitch_framework_analysis : JsVal
  persuasion_techniques : JsVal
  revival_strategies : JsVal
  follow_up_script : JsVal
  key_moments : JsVal
  client_objections : JsVal
deriving DecidableEq

/-- Builds the inserted row from the parsed analysis. -/
def insertRecord (callId userId transcript : String) (a : AnalysisParsed) : AnalysisRow :=
  { call_id := callId
    user_id := userId
    transcript := transcript
    outcome := jsOr a.outcome (.str "unclear")
    outcome_score := jsOr a.outcome_score (.num 50)
    executive_summary := a.executive_summary
    key_strengths := jsOr a.key_strengths (.arr 0)
    areas_for_improvement := jsOr a.areas_for_improvement (.arr 0)
    missed_opportunities := jsOr a.missed_opportunities (.arr 0)
    cialdini_principles := jsOr a.cialdini_principles (.arr 0)
    pitch_framework_analysis := jsOr a.pitch_framework_analysis .null
    persuasion_techniques := jsOr a.persuasion_techniques (.arr 0)
    revival_strategies := jsOr a.revival_strategies (.arr 0)
    follow_up_script := jsOr a.follow_up_script .null
    key_moments := jsOr a.key_moments (.arr 0)
    client_objections := jsOr a.client_objections (.arr 0) }

/-- Database statements issued by the analyze-call handler. -/
inductive DbAct
  | updateStatus (callId : String) (status : String)
  | insertAnalysis (row : AnalysisRow)
deriving DecidableEq

/-- Request body re-read attempted by the catch block (line 293):
`await req.json().catch(() => ({}))`. The body stream was already
consumed by the first `req.json()` (line 155), and a consumed fetch
body rejects on a second read, so the catch yields `{}` and no
`callId`. -/
def rereadCallId (bodyConsumed : Bool) (callId : String) : Option String :=
  if bodyConsumed then none else some callId

/-- Catch block of the handler (lines 288-306): updates the call to
`failed` only when a `callId` could be recovered from the re-read. -/
def analyzeCatchActs (bodyConsumed : Bool) (callId : String) : List DbAct :=
  match rereadCallId bodyConsumed callId with
  | some cid => [.updateStatus cid "failed"]
  | none => []

/-- Analyze-call handler for a request with a valid `callId` and
`transcript` (lines 154-307). `resp` is the provider response; `parse`
is the outcome of the code-fence extraction plus `JSON.parse` on the
returned analysis text; `userLookup` is the `user_id` of the call row
(`none` when the select fails). Error paths append the catch-block
actions, with the body already consumed. Returns the response (success
or thrown message) and the database statements in order. -/
def analyzeCall (callId transcript : String) (resp : ProviderResp)
    (parse : String → Option AnalysisParsed) (userLookup : Option String) :
    Except String AnalysisParsed × List DbAct :=
  let pre := [DbAct.updateStatus callId "processing"]
  let fail := fun (msg : String) =>
    (Except.error msg, pre ++ analyzeCatchActs true callId)
  match resp with
  | .httpError status _ =>
    if status = 429 then
      fail "Rate limit exceeded. Please try again later or check your Google API quota."
    else if status = 403 then
      fail "Invalid API key. Please check your GOOGLE_GEMINI_API_KEY."
    else fail ("AI analysis failed: " ++ toString status)
  | .ok none => fail "No analysis received from AI"
  | .ok (some analysisText) =>
    match parse analysisText with
    | none => fail "Failed to parse analysis results"
    | some analysis =>
      match userLookup with
      | none => fail "Failed to fetch call data"
      | some uid =>
        (.ok analysis,
          pre ++ [.insertAnalysis (insertRecord callId uid transcript analysis),
            .updateStatus callId "completed"])

/-! ## Inputs used by concrete counterexamples and witnesses -/

/-- Spec progress value before segment `j` of `n`:
`Math.round(((j + 0.5) / n) * 80)`. -/
def phaseProgress (n : ℕ) (j : ℕ) : ℤ := jsRound (((j : ℚ) + 1/2) / (n : ℚ) * 80)

/-- Options whose byte budget is below one `minChunkSeconds` segment, so
the clamp raises the computed chunk duration. -/
def c1CounterOpts : PrepareOptions :=
  { targetBytes := 46, sampleRate := 2, minChunkSeconds := 3, maxChunkSeconds := 5 }

/-- Small options producing a chunked result
(`maxSecondsByTarget = 2`, two chunks for six samples). -/
def c2WitnessOpts : PrepareOptions :=
  { targetBytes := 52, sampleRate := 2, minChunkSeconds := 1, maxChunkSeconds := 5 }

/-- Permanent provider error message of the transcribe handler (403). -/
def authFailMsg : String := "Invalid API key. Please check your GOOGLE_GEMINI_API_KEY."

/-! ## Basic facts about the embedded JS primitives -/

theorem ratFloor_eq_floor (q : ℚ) : ratFloor q = ⌊q⌋ := by
  rw [ratFloor, Rat.floor_def]

theorem jsRound_eq_floor (q : ℚ) : jsRound q = ⌊q + 1/2⌋ := ratFloor_eq_floor _

theorem jsRound_mono {q r : ℚ} (h : q ≤ r) : jsRound q ≤ jsRound r := by
  rw [jsRound_eq_floor, jsRound_eq_floor]
  exact Int.floor_le_floor (by linarith)

theorem sampleToBytes_length (s : ℚ) : (sampleToBytes s).length = 2 := rfl

theorem encodeWavMono16_length (samples : List ℚ) (r : ℤ) :
    (encodeWavMono16 samples r).length = 44 + 2 * samples.length := by
  have h : (samples.flatMap sampleToBytes).length = 2 * samples.length := by
    induction samples with
    | nil => rfl
    | cons a t ih =>
      simp only [List.flatMap_cons, List.length_append, ih, sampleToBytes_length,
        List.length_cons]
      ring
  simp [encodeWavMono16, u16le, u32le, h]
  ring

theorem b64Val_b64Char (n : ℕ) (h : n < 64) : b64Val (b64Char n) = n := by
  have key : ∀ m : Fin 64, b64Val (b64Char m.val) = m.val := by decide
  exact key ⟨n, h⟩

theorem b64Char_ne_pad (n : ℕ) : b64Char n ≠ '=' := by
  by_cases h : n < 64
  · have key : ∀ m : Fin 64, b64Char m.val ≠ '=' := by decide
    exact key ⟨n, h⟩
  · have hlen : b64Alphabet.length ≤ n := by
      have : b64Alphabet.length = 64 := by decide
      omega
    rw [b64Char, List.getD_eq_default _ _ hlen]
    decide

theorem base64Encode_ne_nil (l : List ℕ) (h : l ≠ []) : base64Encode l ≠ [] := by
  match l with
  | [] => exact absurd rfl h
  | [a] => simp [base64Encode]
  | [a, b] => simp [base64Encode]
  | a :: b :: c :: rest => simp [base64Encode]

/-! ## Retry loop facts -/

theorem retryGo_all_fail (res : ℕ → Except String String) (e : ℕ → String)
    (h : ∀ i, res i = .error (e i)) (r : ℕ) :
    ∀ (i : ℕ) (ds : List ℕ) (last : Option String),
      retryGo res (r + 1) i last ds =
        (.error (e (i + r)), i + r + 1,
          ds.reverse ++ (List.range' (i + 1) (r + 1)).map fun k => 700 * k) := by
  induction r with
  | zero =>
    intro i ds last
    simp [retryGo, h i, List.range']
  | succ n ih =>
    intro i ds last
    rw [show n + 1 + 1 = (n + 1) + 1 from rfl, retryGo, h i]
    simp only
    rw [ih (i + 1)]
    simp [List.range']
    constructor
    · congr 1; omega
    · omega

theorem invokeRetry_all_fail (res : ℕ → Except String String) (e : ℕ → String)
    (attempts : ℕ) (h : ∀ i, res i = .error (e i)) :
    invokeTranscribeWithRetry res attempts =
      (.error (e attempts), attempts + 1,
        (List.range' 1 (attempts + 1)).map fun k => 700 * k) := by
  rw [invokeTranscribeWithRetry, retryGo_all_fail res e h attempts 0 [] none]
  simp

/-! ## Transcript assembly facts -/

theorem segLoop_all_ok (total : ℕ) (ms : List String) :
    ∀ i : ℕ, (segLoop total i (ms.map SegOutcome.ok)).2 = .ok (ms.map jsTrim) := by
  induction ms with
  | nil => intro i; rfl
  | cons m rest ih =>
    intro i
    simp only [List.map_cons, segLoop, ih (i + 1), Except.map]

theorem transcribeSegments_all_ok (segs : List (List ℕ × String))
    (hseg : ∀ p ∈ segs, p.1.length ≤ MAX_SEGMENT_BYTES ∧ p.2 ≠ "") :
    transcribeSegments (segs.map fun p => (p.1, ProviderResp.ok (some p.2)))
      = .ok (segs.map fun p => jsTrim p.2) := by
  induction segs with
  | nil => rfl
  | cons p rest ih =>
    have hp := hseg p (by simp)
    have hps : (processSegment p.1 (.ok (some p.2))).1 = .ok (jsTrim p.2) := by
      rw [processSegment, if_neg (by omega)]
      simp [hp.2]
    simp only [List.map_cons, transcribeSegments, hps]
    rw [ih (fun q hq => hseg q (by simp [hq]))]
    rfl

/-! ## Ceiling division facts -/

theorem ceilDiv_le_iff (L b k : ℕ) (hb : 0 < b) : ceilDiv L b ≤ k ↔ L ≤ k * b := by
  rw [ceilDiv, Nat.div_le_iff_le_mul_add_pred hb, Nat.mul_comm b k]
  omega

theorem ceilDiv_cast (L b : ℕ) (hb : 0 < b) : (ceilDiv L b : ℤ) = ⌈(L : ℚ) / (b : ℚ)⌉ := by
  have hbq : (0:ℚ) < (b:ℚ) := by exact_mod_cast hb
  refine le_antisymm ?_ ?_
  · rcases Nat.eq_zero_or_pos (ceilDiv L b) with h0 | hpos
    · rw [h0]
      exact_mod_cast Int.ceil_nonneg (by positivity)
    · have hq : ((((ceilDiv L b : ℤ) - 1 : ℤ)) : ℚ) < (L : ℚ) / (b : ℚ) := by
        by_contra hnot
        push_neg at hnot
        rw [div_le_iff₀ hbq] at hnot
        have hc1 : ((((ceilDiv L b : ℤ) - 1 : ℤ)) : ℚ) = ((ceilDiv L b - 1 : ℕ) : ℚ) := by
          have hz : ((ceilDiv L b - 1 : ℕ) : ℤ) = (ceilDiv L b : ℤ) - 1 := by omega
          exact_mod_cast congrArg (fun z : ℤ => (z : ℚ)) hz.symm
        rw [hc1] at hnot
        have hnat : L ≤ (ceilDiv L b - 1) * b := by exact_mod_cast hnot
        have := (ceilDiv_le_iff L b (ceilDiv L b - 1) hb).mpr hnat
        omega
      have := Int.lt_ceil.mpr hq
      omega
  · rw [Int.ceil_le, div_le_iff₀ hbq]
    have := (ceilDiv_le_iff L b (ceilDiv L b) hb).mp (le_refl _)
    exact_mod_cast this

/-! ## Progress model facts -/

theorem phaseProgress_mono (n : ℕ) {j j' : ℕ} (h : j ≤ j') :
    phaseProgress n j ≤ phaseProgress n j' := by
  apply jsRound_mono
  rcases Nat.eq_zero_or_pos n with h0 | hp
  · simp [h0]
  · have hn : (0:ℚ) < (n:ℚ) := by exact_mod_cast hp
    have hj : (j:ℚ) ≤ (j':ℚ) := by exact_mod_cast h
    gcongr

theorem phaseProgress_le_80 (n j : ℕ) (h : j < n) : phaseProgress n j ≤ 80 := by
  rw [phaseProgress, jsRound_eq_floor]
  have hn : (0:ℚ) < (n:ℚ) := by exact_mod_cast Nat.pos_of_ne_zero (by omega)
  have h1 : ((j:ℚ) + 1) ≤ (n:ℚ) := by exact_mod_cast h
  have h2 : ((j:ℚ) + 1/2) / (n:ℚ) ≤ 1 := by
    rw [div_le_one hn]
    linarith
  have h3 : ((j:ℚ) + 1/2) / (n:ℚ) * 80 ≤ 80 := by
    have hnn : (0:ℚ) ≤ ((j:ℚ) + 1/2) / (n:ℚ) := by positivity
    nlinarith
  have h4 := Int.floor_lt.mpr (show ((j:ℚ) + 1/2) / (n:ℚ) * 80 + 1/2 < ((81:ℤ):ℚ) by
    push_cast; linarith)
  omega

theorem segLoop_chunkProgress (total : ℕ) (os : List SegOutcome) :
    ∀ i, (segLoop total i os).1.filterMap chunkProgress
      = (List.range' i (attempted os)).map (phaseProgress total) := by
  induction os with
  | nil => intro i; simp [segLoop, attempted]
  | cons o rest ih =>
    intro i
    cases o with
    | ok t =>
      simp only [segLoop, attempted, List.range'_succ, List.map_cons, List.filterMap_cons]
      simp [chunkProgress, ih (i + 1), phaseProgress]
    | fail e =>
      simp [segLoop, attempted, chunkProgress, phaseProgress, List.range']

theorem segLoop_progressVals (total : ℕ) (os : List SegOutcome) :
    ∀ i, progressVals (segLoop total i os).1
      = (List.range' i (attempted os)).map (phaseProgress total) := by
  induction os with
  | nil => intro i; simp [segLoop, attempted, progressVals]
  | cons o rest ih =>
    intro i
    cases o with
    | ok t =>
      simp only [segLoop, attempted, List.range'_succ, List.map_cons]
      simpa [progressVals, phaseProgress] using ih (i + 1)
    | fail e =>
      simp [segLoop, attempted, progressVals, phaseProgress, List.range']

theorem segLoop_status (total : ℕ) (os : List SegOutcome) :
    ∀ i, (segLoop total i os).1.filterMap Update.status = [] := by
  induction os with
  | nil => intro i; simp [segLoop]
  | cons o rest ih =>
    intro i
    cases o with
    | ok t => simpa [segLoop] using ih (i + 1)
    | fail e => simp [segLoop]

theorem attempted_le_length (os : List SegOutcome) : attempted os ≤ os.length := by
  induction os with
  | nil => simp [attempted]
  | cons o rest ih =>
    cases o with
    | ok t => simp only [attempted, List.length_cons]; omega
    | fail e => simp only [attempted, List.length_cons]; omega

theorem attempted_pos (os : List SegOutcome) (h : os ≠ []) : 1 ≤ attempted os := by
  cases os with
  | nil => exact absurd rfl h
  | cons o rest => cases o <;> simp [attempted]

theorem segLoop_error_ne_nil (total i : ℕ) (os : List SegOutcome) (e : String)
    (h : (segLoop total i os).2 = .error e) : os ≠ [] := by
  intro hnil
  subst hnil
  simp [segLoop] at h

theorem range'_map_getLast?_int (f : ℕ → ℤ) (k : ℕ) (hk : 0 < k) :
    ∀ i, ((List.range' i k).map f).getLast? = some (f (i + k - 1)) := by
  induction k with
  | zero => omega
  | succ m ih =>
    intro i
    rcases Nat.eq_zero_or_pos m with h0 | hm
    · subst h0
      simp [List.range']
    · rw [List.range'_succ, List.map_cons]
      have htl := ih hm (i + 1)
      rw [List.getLast?_cons, htl]
      simp only [Option.getD_some]
      congr 2
      omega

theorem expectedProgress_eq (n k : ℕ) :
    expectedProgress n k = (List.range' 0 k).map (phaseProgress n) := by
  simp only [expectedProgress, List.range_eq_range']
  rfl

theorem phase_chain (n k : ℕ) :
    ∀ i, List.Chain' (· ≤ ·) ((List.range' i k).map (phaseProgress n)) := by
  induction k with
  | zero => intro i; simp
  | succ m ih =>
    intro i
    rw [List.range'_succ, List.map_cons, List.chain'_cons']
    refine ⟨?_, ih (i + 1)⟩
    intro y hy
    rcases Nat.eq_zero_or_pos m with h0 | hm
    · subst h0; simp at hy
    · obtain ⟨m', rfl⟩ : ∃ m'', m = m'' + 1 := ⟨m - 1, by omega⟩
      rw [List.range'_succ, List.map_cons] at hy
      simp only [List.head?_cons, Option.mem_def, Option.some.injEq] at hy
      subst hy
      exact phaseProgress_mono n (by omega)

/-! ## Claim theorems -/

/-- C1 counterexample: with `targetBytes = 46`, `sampleRate = 2` and
`minChunkSeconds = 3`, the byte-budget duration is clamped up to 3
seconds, and the single produced file (56 bytes) exceeds the 46-byte
target, refuting the claim for the case where the clamp to
`minSegmentSeconds` raises the computed chunk duration. -/
theorem C1_segment_byte_budget_counterexample :
    ∃ f ∈ segmentFiles (prepareAudio (List.replicate 6 (0:ℚ)) c1CounterOpts),
      c1CounterOpts.targetBytes < (f.length : ℤ) := by
  have hcs : chunkSamplesOf c1CounterOpts = 6 := by decide
  have hpa : prepareAudio (List.replicate 6 (0:ℚ)) c1CounterOpts
      = .single (encodeWavMono16 (List.replicate 6 (0:ℚ)) c1CounterOpts.sampleRate)
          c1CounterOpts.sampleRate := by
    simp only [prepareAudio, hcs, List.length_replicate]
    norm_num [ceilDiv]
  refine ⟨encodeWavMono16 (List.replicate 6 (0:ℚ)) c1CounterOpts.sampleRate,
    by rw [hpa]; exact List.mem_singleton_self _, ?_⟩
  rw [encodeWavMono16_length]
  simp [c1CounterOpts]

/-- C1 (amended): every file produced by `prepareAudio` (the single file
of a `single` result, each chunk of a `chunked` result) has raw byte
size at most `targetBytes`, provided the byte-budget duration
`Math.floor((targetBytes - 44) / (sampleRate * 2))` is at least
`minChunkSeconds`, i.e. the clamp does not raise the computed chunk
duration; when the clamp raises it, segments may exceed the target (see
the counterexample). -/
theorem C1_segment_byte_budget_amended (samples : List ℚ) (opts : PrepareOptions)
    (hr : 0 < opts.sampleRate) (hmin : 0 < opts.minChunkSeconds)
    (hbudget : opts.minChunkSeconds ≤ (opts.targetBytes - 44).fdiv (opts.sampleRate * 2)) :
    ∀ f ∈ segmentFiles (prepareAudio samples opts), (f.length : ℤ) ≤ opts.targetBytes := by
  intro f hf
  have hcpos : 0 < chunkSecondsOf opts := lt_of_lt_of_le hmin (le_max_left _ _)
  have hcle : chunkSecondsOf opts ≤ (opts.targetBytes - 44).fdiv (opts.sampleRate * 2) :=
    max_le hbudget (min_le_right _ _)
  have h2r : (0:ℤ) < opts.sampleRate * 2 := by positivity
  have hfd : (opts.targetBytes - 44).fdiv (opts.sampleRate * 2) * (opts.sampleRate * 2)
      ≤ opts.targetBytes - 44 := by
    rw [Int.fdiv_eq_ediv _ (le_of_lt h2r)]
    exact Int.ediv_mul_le _ (ne_of_gt h2r)
  have hkey : chunkSecondsOf opts * opts.sampleRate * 2 ≤ opts.targetBytes - 44 := by
    nlinarith
  have hcsamp : ((chunkSamplesOf opts : ℕ) : ℤ) = chunkSecondsOf opts * opts.sampleRate := by
    rw [chunkSamplesOf, Int.toNat_of_nonneg (by positivity)]
  have hcs0 : 0 < chunkSamplesOf opts := by
    have hpos : (0:ℤ) < chunkSecondsOf opts * opts.sampleRate := by positivity
    omega
  suffices hlen : ∃ k : ℕ, f.length = 44 + 2 * k
      ∧ (k : ℤ) ≤ chunkSecondsOf opts * opts.sampleRate by
    obtain ⟨k, hk1, hk2⟩ := hlen
    have hcast : (f.length : ℤ) = 44 + 2 * (k : ℤ) := by
      rw [hk1]; push_cast; ring
    linarith
  rw [prepareAudio] at hf
  by_cases hone : ceilDiv samples.length (chunkSamplesOf opts) ≤ 1
  · rw [if_pos hone] at hf
    simp only [segmentFiles, List.mem_singleton] at hf
    subst hf
    refine ⟨samples.length, encodeWavMono16_length _ _, ?_⟩
    have hle : samples.length ≤ chunkSamplesOf opts := by
      rw [ceilDiv, Nat.div_le_iff_le_mul_add_pred hcs0] at hone
      omega
    rw [← hcsamp]
    exact_mod_cast hle
  · rw [if_neg hone] at hf
    simp only [segmentFiles, List.mem_map, List.mem_range] at hf
    obtain ⟨i, _, hfe⟩ := hf
    subst hfe
    refine ⟨_, encodeWavMono16_length _ _, ?_⟩
    have hle : ((samples.drop (i * chunkSamplesOf opts)).take (chunkSamplesOf opts)).length
        ≤ chunkSamplesOf opts := by
      rw [List.length_take]
      exact min_le_left _ _
    rw [← hcsamp]
    exact_mod_cast hle

/-- C1 witness: at the source default options (6 MB target, 16 kHz, 60 s
minimum) the hypotheses hold, and every file produced for the empty
recording is within the target. -/
theorem C1_segment_byte_budget_witness :
    (segmentFiles (prepareAudio [] ({} : PrepareOptions))).all
      (fun f => f.length ≤ 6 * 1024 * 1024) = true := by
  have h := C1_segment_byte_budget_amended [] ({} : PrepareOptions)
    (by decide) (by decide) (by decide)
  rw [List.all_eq_true]
  intro f hf
  have hle := h f hf
  have htb : ({} : PrepareOptions).targetBytes = 6 * 1024 * 1024 := rfl
  rw [htb] at hle
  simp only [decide_eq_true_eq]
  omega

/-- C2 (confirmed): `prepareAudio` computes the segment duration as
`clamp(Math.floor((targetBytes - 44) / (sampleRate * 2)), minChunkSeconds,
maxChunkSeconds)`, returns a `single` result exactly when
`ceil(totalSamples / (chunkSeconds * sampleRate)) ≤ 1`, and otherwise
returns `chunked` with exactly `ceil(duration / chunkSeconds)` segments
(`duration = totalSamples / sampleRate`) in index order. -/
theorem C2_single_vs_chunked (samples : List ℚ) (opts : PrepareOptions)
    (hr : 0 < opts.sampleRate) (hmin : 0 < opts.minChunkSeconds) :
    chunkSecondsOf opts
        = clamp ((opts.targetBytes - 44).fdiv (opts.sampleRate * 2))
            opts.minChunkSeconds opts.maxChunkSeconds
  ∧ (isSingle (prepareAudio samples opts) = true
      ↔ ceilDiv samples.length (chunkSamplesOf opts) ≤ 1)
  ∧ (¬ ceilDiv samples.length (chunkSamplesOf opts) ≤ 1 →
      numSegments (prepareAudio samples opts) = ceilDiv samples.length (chunkSamplesOf opts)
      ∧ (numSegments (prepareAudio samples opts) : ℤ)
          = ⌈((samples.length : ℚ) / ((opts.sampleRate : ℤ) : ℚ))
              / ((chunkSecondsOf opts : ℤ) : ℚ)⌉
      ∧ segmentFiles (prepareAudio samples opts)
          = (List.range (ceilDiv samples.length (chunkSamplesOf opts))).map fun i =>
              encodeWavMono16
                ((samples.drop (i * chunkSamplesOf opts)).take (chunkSamplesOf opts))
                opts.sampleRate) := by
  have hcpos : 0 < chunkSecondsOf opts := lt_of_lt_of_le hmin (le_max_left _ _)
  have hcsamp : ((chunkSamplesOf opts : ℕ) : ℤ) = chunkSecondsOf opts * opts.sampleRate := by
    rw [chunkSamplesOf, Int.toNat_of_nonneg (by positivity)]
  have hcs0 : 0 < chunkSamplesOf opts := by
    have hpos : (0:ℤ) < chunkSecondsOf opts * opts.sampleRate := by positivity
    omega
  refine ⟨rfl, ?_, ?_⟩
  · by_cases hone : ceilDiv samples.length (chunkSamplesOf opts) ≤ 1
    · simp [prepareAudio, hone, isSingle]
    · simp [prepareAudio, hone, isSingle]
  · intro hone
    have hpa : prepareAudio samples opts
        = .chunked
            ((List.range (ceilDiv samples.length (chunkSamplesOf opts))).map fun i =>
              encodeWavMono16
                ((samples.drop (i * chunkSamplesOf opts)).take (chunkSamplesOf opts))
                opts.sampleRate)
            opts.sampleRate (chunkSecondsOf opts) := by
      simp [prepareAudio, hone]
    refine ⟨?_, ?_, ?_⟩
    · rw [hpa]; simp [numSegments, segmentFiles]
    · have hn : numSegments (prepareAudio samples opts)
          = ceilDiv samples.length (chunkSamplesOf opts) := by
        rw [hpa]; simp [numSegments, segmentFiles]
      rw [hn, ceilDiv_cast _ _ hcs0, div_div]
      have hq : ((chunkSamplesOf opts : ℕ) : ℚ)
          = ((chunkSecondsOf opts : ℤ) : ℚ) * ((opts.sampleRate : ℤ) : ℚ) := by
        exact_mod_cast hcsamp
      rw [hq, mul_comm]
    · rw [hpa]
      simp [segmentFiles]

/-- C2 witness: six samples at 2 Hz with a 52-byte target give
`chunkSeconds = 2`, a chunked result with 2 segments, and
`2 = ceil((6 / 2) / 2)`. -/
theorem C2_single_vs_chunked_witness :
    isSingle (prepareAudio (List.replicate 6 (0:ℚ)) c2WitnessOpts) = false
  ∧ numSegments (prepareAudio (List.replicate 6 (0:ℚ)) c2WitnessOpts) = 2
  ∧ (numSegments (prepareAudio (List.replicate 6 (0:ℚ)) c2WitnessOpts) : ℤ)
      = ⌈((6:ℚ) / 2) / 2⌉ := by
  have h := C2_single_vs_chunked (List.replicate 6 (0:ℚ)) c2WitnessOpts (by decide) (by decide)
  have hone : ¬ ceilDiv (List.replicate 6 (0:ℚ)).length (chunkSamplesOf c2WitnessOpts) ≤ 1 := by
    rw [List.length_replicate]
    decide
  obtain ⟨hchunk1, hchunk2, _⟩ := h.2.2 hone
  refine ⟨?_, ?_, ?_⟩
  · cases hs : isSingle (prepareAudio (List.replicate 6 (0:ℚ)) c2WitnessOpts)
    · rfl
    · exact absurd (h.2.1.mp hs) hone
  · rw [hchunk1, List.length_replicate]
    decide
  · have hcsec : chunkSecondsOf c2WitnessOpts = 2 := by decide
    have hsr : c2WitnessOpts.sampleRate = 2 := rfl
    rw [hchunk2, hcsec, hsr, List.length_replicate]
    norm_num

/-- C3 (confirmed): across any `startJob` run the emitted progress values
are non-decreasing; the transcription-phase updates carry exactly
`Math.round(((i + 0.5) / n) * 80)` for the segments attempted in order;
and the final emitted progress value is 100 exactly when the final
status update is `complete`. -/
theorem C3_progress_model (outcomes : List SegOutcome) (ana : Except String Unit) :
    List.Chain' (· ≤ ·) (progressVals (startJobRun outcomes ana).updates)
  ∧ (startJobRun outcomes ana).updates.filterMap chunkProgress
      = expectedProgress outcomes.length (attempted outcomes)
  ∧ ((progressVals (startJobRun outcomes ana).updates).getLast? = some 100
      ↔ lastStatus (startJobRun outcomes ana).updates = some .complete) := by
  have hkn := attempted_le_length outcomes
  have hphase := segLoop_progressVals outcomes.length outcomes 0
  simp only [progressVals] at hphase
  have hchunk := segLoop_chunkProgress outcomes.length outcomes 0
  have hstat := segLoop_status outcomes.length outcomes 0
  have hchain := phase_chain outcomes.length (attempted outcomes) 0
  have hlast80 : ∀ y ∈ ((List.range' 0 (attempted outcomes)).map
      (phaseProgress outcomes.length)).getLast?, y ≤ 80 := by
    intro y hy
    rcases Nat.eq_zero_or_pos (attempted outcomes) with h0 | hkpos
    · rw [h0] at hy; simp at hy
    · rw [range'_map_getLast?_int _ _ hkpos 0] at hy
      simp only [Option.mem_def, Option.some.injEq] at hy
      subst hy
      have hne : outcomes ≠ [] := by
        intro h; rw [h] at hkpos; simp [attempted] at hkpos
      have hnpos : 0 < outcomes.length := List.length_pos.mpr hne
      exact phaseProgress_le_80 _ _ (by omega)
  cases hseg : (segLoop outcomes.length 0 outcomes).2 with
  | error e =>
    have hrun : startJobRun outcomes ana =
        { updates := (segLoop outcomes.length 0 outcomes).1
            ++ [{ status := some .error, errMsg := some e }],
          failedWith := some e } := by
      simp only [startJobRun, hseg]
    have hkpos : 1 ≤ attempted outcomes :=
      attempted_pos _ (segLoop_error_ne_nil _ _ _ _ hseg)
    rw [hrun]
    have hpv : List.filterMap Update.progress ((segLoop outcomes.length 0 outcomes).1
        ++ [{ status := some .error, errMsg := some e }])
        = (List.range' 0 (attempted outcomes)).map (phaseProgress outcomes.length) := by
      rw [List.filterMap_append, hphase]
      simp
    refine ⟨?_, ?_, ?_⟩
    · simp only [progressVals]
      rw [hpv]
      exact hchain
    · rw [List.filterMap_append, hchunk, expectedProgress_eq]
      simp [chunkProgress]
    · simp only [progressVals, lastStatus]
      rw [hpv, List.filterMap_append, hstat]
      constructor
      · intro h100
        rw [range'_map_getLast?_int _ _ hkpos 0] at h100
        have := hlast80 _ (by rw [range'_map_getLast?_int _ _ hkpos 0]; exact h100)
        omega
      · intro hcomp
        simp at hcomp
  | ok parts =>
    cases ana with
    | error e =>
      have hrun : startJobRun outcomes (.error e) =
          { updates := (segLoop outcomes.length 0 outcomes).1
              ++ [{ status := some .analyzing, progress := some 85 },
                  { status := some .error, errMsg := some e }],
            failedWith := some e } := by
        simp only [startJobRun, hseg]
      rw [hrun]
      have hpv : List.filterMap Update.progress ((segLoop outcomes.length 0 outcomes).1
          ++ [{ status := some .analyzing, progress := some 85 },
              { status := some .error, errMsg := some e }])
          = ((List.range' 0 (attempted outcomes)).map (phaseProgress outcomes.length))
              ++ [85] := by
        rw [List.filterMap_append, hphase]
        simp
      refine ⟨?_, ?_, ?_⟩
      · simp only [progressVals]
        rw [hpv, List.chain'_append]
        refine ⟨hchain, by simp, ?_⟩
        intro x hx y hy
        simp only [List.head?_cons, Option.mem_def, Option.some.injEq] at hy
        subst hy
        have := hlast80 x hx
        omega
      · rw [List.filterMap_append, hchunk, expectedProgress_eq]
        simp [chunkProgress]
      · simp only [progressVals, lastStatus]
        rw [hpv, List.filterMap_append, hstat, List.getLast?_concat]
        constructor
        · intro h100
          simp at h100
        · intro hcomp
          simp at hcomp
    | ok u =>
      have hrun : startJobRun outcomes (.ok u) =
          { updates := (segLoop outcomes.length 0 outcomes).1
              ++ [{ status := some .analyzing, progress := some 85 },
                  { status := some .complete, progress := some 100 }],
            completedWith := some (String.intercalate "\n\n"
              (parts.filter fun s => s != "")) } := by
        simp only [startJobRun, hseg]
      rw [hrun]
      have hpv : List.filterMap Update.progress ((segLoop outcomes.length 0 outcomes).1
          ++ [{ status := some .analyzing, progress := some 85 },
              { status := some .complete, progress := some 100 }])
          = ((List.range' 0 (attempted outcomes)).map (phaseProgress outcomes.length))
              ++ [85, 100] := by
        rw [List.filterMap_append, hphase]
        simp
      refine ⟨?_, ?_, ?_⟩
      · simp only [progressVals]
        rw [hpv, List.chain'_append]
        refine ⟨hchain, by simp, ?_⟩
        intro x hx y hy
        simp only [List.head?_cons, Option.mem_def, Option.some.injEq] at hy
        subst hy
        have := hlast80 x hx
        omega
      · rw [List.filterMap_append, hchunk, expectedProgress_eq]
        simp [chunkProgress]
      · simp only [progressVals, lastStatus]
        rw [hpv, List.filterMap_append, hstat]
        refine iff_of_true ?_ ?_
        · rw [List.getLast?_append]
          rfl
        · rfl

/-- C4 (confirmed): when every invocation fails, the retry wrapper
performs exactly its configured number of attempts — `attempts + 1`
invocations, the initial call plus the `attempts` configured retries of
the loop bound `i <= attempts` — sleeping `700 * (i + 1)` ms after the
`i`-th failure (so `700 * k` before retry `k`, plus one final sleep
before the throw), and only then does the job transition to `error`
with the last failure message surfaced verbatim to the error
callback. -/
theorem C4_retry_exhaustion (res : ℕ → Except String String) (e : ℕ → String)
    (attempts : ℕ) (ana : Except String Unit) (h : ∀ i, res i = .error (e i)) :
    invokeTranscribeWithRetry res attempts =
        (.error (e attempts), attempts + 1,
          (List.range' 1 (attempts + 1)).map fun k => 700 * k)
      ∧ (startJobRun [segOutcomeOf res attempts] ana).failedWith = some (e attempts)
      ∧ lastStatus (startJobRun [segOutcomeOf res attempts] ana).updates = some .error := by
  have hmain := invokeRetry_all_fail res e attempts h
  have hseg : segOutcomeOf res attempts = .fail (e attempts) := by
    rw [segOutcomeOf, hmain]
  refine ⟨hmain, ?_, ?_⟩ <;> rw [hseg] <;> rfl

/-- C4 witness: a mock that always throws `network` with the default
`attempts = 2` is invoked 3 times with sleeps 700, 1400, 2100 ms, and
the job fails with the message verbatim. -/
theorem C4_retry_exhaustion_witness :
    invokeTranscribeWithRetry (fun _ => .error "network") 2
        = (.error "network", 3, [700, 1400, 2100])
  ∧ (startJobRun [segOutcomeOf (fun _ => .error "network") 2] (.ok ())).failedWith
        = some "network" := by
  have h := C4_retry_exhaustion (fun _ => .error "network") (fun _ => "network") 2
    (.ok ()) (fun _ => rfl)
  exact ⟨by rw [h.1]; rfl, h.2.1⟩

/-- C5 counterexample: a permanent provider failure (the 403 auth
message) is retried: with the default `attempts = 2` the wrapper
performs 3 invocations, not 1, and sleeps between them rather than
surfacing the first failure immediately. -/
theorem C5_permanent_errors_counterexample :
    (invokeTranscribeWithRetry (fun _ => .error authFailMsg) 2).2.1 = 3
  ∧ (invokeTranscribeWithRetry (fun _ => .error authFailMsg) 2).2.1 ≠ 1
  ∧ (invokeTranscribeWithRetry (fun _ => .error authFailMsg) 2).2.2 ≠ [] := by
  refine ⟨rfl, by decide, by decide⟩

/-- C5 (amended): the client retry wrapper does not classify errors —
every failure, permanent provider errors included, is retried up to the
configured attempt count; the oversized-segment rejection happens
server-side before any provider request within a single invocation
(the emitted actions stop at the download), but the client still
re-invokes on such failures. -/
theorem C5_permanent_errors_amended (res : ℕ → Except String String) (e : ℕ → String)
    (attempts : ℕ) (bytes : List ℕ) (resp : ProviderResp)
    (h : ∀ i, res i = .error (e i)) (hsize : MAX_SEGMENT_BYTES < bytes.length) :
    (invokeTranscribeWithRetry res attempts).2.1 = attempts + 1
  ∧ processSegment bytes resp = (.error (.tooLarge bytes.length), [SrvAct.download])
  ∧ ∀ d, SrvAct.providerRequest d ∉ (processSegment bytes resp).2 := by
  have h2 : processSegment bytes resp = (.error (.tooLarge bytes.length), [SrvAct.download]) := by
    rw [processSegment, if_pos hsize]
  refine ⟨by rw [invokeRetry_all_fail res e attempts h], h2, ?_⟩
  intro d
  rw [h2]
  simp

/-- C5 witness: the auth failure is retried through 2 invocations at
`attempts = 1`, and a segment one byte over the 5 MB limit is rejected
with only a download action, before any provider request. -/
theorem C5_permanent_errors_witness :
    (invokeTranscribeWithRetry (fun _ => .error authFailMsg) 1).2.1 = 2
  ∧ processSegment (List.replicate (MAX_SEGMENT_BYTES + 1) 0) (.ok (some "x"))
      = (.error (.tooLarge (MAX_SEGMENT_BYTES + 1)), [SrvAct.download]) := by
  have h := C5_permanent_errors_amended (fun _ => .error authFailMsg) (fun _ => authFailMsg) 1
    (List.replicate (MAX_SEGMENT_BYTES + 1) 0) (.ok (some "x")) (fun _ => rfl)
    (by rw [List.length_replicate]; omega)
  exact ⟨h.1, by rw [h.2.1]; simp⟩

/-- C6 (code bug): when the analysis text does not parse, the handler
fails with the parse-error message and inserts no analysis row — but
the call status is left at `processing`: the catch block re-reads the
already-consumed request body, recovers no `callId`, and never issues
the `failed` update the code intends (and the spec requires). -/
theorem C6_malformed_analysis_bug :
    (analyzeCall "call-1" "hello" (.ok (some "I cannot analyze this call."))
        (fun _ => none) (some "user-1")).1
      = .error "Failed to parse analysis results"
  ∧ (analyzeCall "call-1" "hello" (.ok (some "I cannot analyze this call."))
        (fun _ => none) (some "user-1")).2
      = [DbAct.updateStatus "call-1" "processing"]
  ∧ DbAct.updateStatus "call-1" "failed"
      ∉ (analyzeCall "call-1" "hello" (.ok (some "I cannot analyze this call."))
          (fun _ => none) (some "user-1")).2
  ∧ ∀ row, DbAct.insertAnalysis row
      ∉ (analyzeCall "call-1" "hello" (.ok (some "I cannot analyze this call."))
          (fun _ => none) (some "user-1")).2 := by
  refine ⟨rfl, rfl, by decide, ?_⟩
  intro row
  have hacts : (analyzeCall "call-1" "hello" (.ok (some "I cannot analyze this call."))
      (fun _ => none) (some "user-1")).2
      = [DbAct.updateStatus "call-1" "processing"] := rfl
  rw [hacts]
  simp

/-- C7 (confirmed): the final transcript is exactly the per-segment
transcripts, trimmed, with empty ones discarded, joined in index order
with the paragraph separator — both in the client loop (the transcript
handed to `onComplete`) and in the server handler. -/
theorem C7_transcript_reassembly (ms : List String) (segs : List (List ℕ × String))
    (hseg : ∀ p ∈ segs, p.1.length ≤ MAX_SEGMENT_BYTES ∧ p.2 ≠ "") :
    (startJobRun (ms.map SegOutcome.ok) (.ok ())).completedWith
        = some (String.intercalate "\n\n" ((ms.map jsTrim).filter fun s => s != ""))
  ∧ transcribeHandler (segs.map fun p => (p.1, ProviderResp.ok (some p.2)))
        = .ok (String.intercalate "\n\n"
            ((segs.map fun p => jsTrim p.2).filter fun s => s != "")) := by
  constructor
  · rw [startJobRun]
    simp only [segLoop_all_ok (ms.map SegOutcome.ok).length ms 0]
  · rw [transcribeHandler, transcribeSegments_all_ok segs hseg]
    rfl

/-- C7 witness: marker transcripts are trimmed, empties dropped, and the
rest joined in index order with a blank line. -/
theorem C7_transcript_reassembly_witness :
    (startJobRun (["  hello ", "", "world"].map SegOutcome.ok) (.ok ())).completedWith
        = some "hello\n\nworld"
  ∧ transcribeHandler ([([], "a"), ([7], " b ")].map fun p => (p.1, ProviderResp.ok (some p.2)))
        = .ok "a\n\nb" := by
  have h := C7_transcript_reassembly ["  hello ", "", "world"] [([], "a"), ([7], " b ")]
    (by intro p hp; fin_cases hp <;> exact ⟨by decide, by decide⟩)
  refine ⟨by rw [h.1]; rfl, by rw [h.2]; rfl⟩

/-- C8 (confirmed): the transport encoding is applied to the whole byte
buffer in one pass and round-trips: decoding the produced base64 text
yields exactly the original bytes, including for buffers whose length
is not a multiple of the 3-byte encoding group. -/
theorem C8_base64_roundtrip (b : List ℕ) (hb : ∀ x ∈ b, x < 256) :
    base64Decode (base64Encode b) = b := by
  induction b using base64Encode.induct with
  | case1 => rfl
  | case2 a =>
    have ha : a < 256 := hb a (by simp)
    simp only [base64Encode, base64Decode, List.isEmpty_nil, if_true]
    rw [if_pos (by rfl)]
    rw [b64Val_b64Char _ (by omega), b64Val_b64Char _ (by omega)]
    simp only [List.cons.injEq, and_true]
    omega
  | case3 a c =>
    have ha : a < 256 := hb a (by simp)
    have hc : c < 256 := hb c (by simp)
    simp only [base64Encode, base64Decode, List.isEmpty_nil, if_true]
    rw [if_neg (by simp [b64Char_ne_pad]), if_pos (by rfl)]
    rw [b64Val_b64Char _ (by omega), b64Val_b64Char _ (by omega),
      b64Val_b64Char _ (by omega)]
    simp only [List.cons.injEq, and_true]
    constructor <;> omega
  | case4 a c d rest ih =>
    have ha : a < 256 := hb a (by simp)
    have hc : c < 256 := hb c (by simp)
    have hd : d < 256 := hb d (by simp)
    have hrest : ∀ x ∈ rest, x < 256 := fun x hx => hb x (by simp [hx])
    rcases rest with _ | ⟨e, rest'⟩
    · simp only [base64Encode, base64Decode, List.isEmpty_nil, if_true]
      rw [if_neg (by simp [b64Char_ne_pad]), if_neg (by simp [b64Char_ne_pad])]
      rw [b64Val_b64Char _ (by omega), b64Val_b64Char _ (by omega),
        b64Val_b64Char _ (by omega), b64Val_b64Char _ (by omega)]
      simp only [List.cons.injEq, and_true]
      refine ⟨by omega, by omega, by omega⟩
    · have hne := base64Encode_ne_nil (e :: rest') (by simp)
      obtain ⟨hd', tl', hsh⟩ := List.exists_cons_of_ne_nil hne
      simp only [base64Encode] at hsh ⊢
      rw [hsh]
      simp only [base64Decode, List.isEmpty_cons, Bool.false_eq_true, if_false]
      rw [← hsh, ih hrest]
      rw [b64Val_b64Char _ (by omega), b64Val_b64Char _ (by omega),
        b64Val_b64Char _ (by omega), b64Val_b64Char _ (by omega)]
      simp only [List.cons.injEq, and_true]
      refine ⟨by omega, by omega, by omega⟩

/-- C8 witness: a 5-byte buffer (spanning an unaligned group boundary)
round-trips. -/
theorem C8_base64_roundtrip_witness :
    (∀ x ∈ [77, 255, 0, 7, 200], x < 256)
  ∧ base64Decode (base64Encode [77, 255, 0, 7, 200]) = [77, 255, 0, 7, 200] :=
  ⟨by decide, C8_base64_roundtrip [77, 255, 0, 7, 200] (by decide)⟩

/-- C9 counterexample: a whitespace-only provider text passes the
falsiness check, so a successful transcribe-audio response can carry an
empty transcript string for the whole call. -/
theorem C9_empty_transcript_counterexample :
    transcribeHandler [([], ProviderResp.ok (some " "))] = .ok "" := rfl

/-- C9 (amended): a segment whose provider response carries no
transcript text, or an empty string, fails with the no-transcript
error rather than returning a transcript; however the check is JS
falsiness, so a non-empty whitespace-only text passes it, and a
successful response can then carry an empty transcript for the whole
call (see the counterexample). -/
theorem C9_empty_transcript_amended (bytes : List ℕ) (t : String)
    (hsize : bytes.length ≤ MAX_SEGMENT_BYTES) :
    (processSegment bytes (.ok none)).1 = .error .noTranscript
  ∧ (processSegment bytes (.ok (some ""))).1 = .error .noTranscript
  ∧ (t ≠ "" → jsTrim t = "" → transcribeHandler [(bytes, .ok (some t))] = .ok "") := by
  have hnot : ¬ bytes.length > MAX_SEGMENT_BYTES := by omega
  refine ⟨by rw [processSegment, if_neg hnot],
    by rw [processSegment, if_neg hnot]; rfl, ?_⟩
  intro ht htrim
  have hps : (processSegment bytes (.ok (some t))).1 = .ok (jsTrim t) := by
    rw [processSegment, if_neg hnot]
    simp [ht]
  rw [transcribeHandler, transcribeSegments, hps, htrim]
  rfl

/-- C9 witness: an empty segment with missing or empty text fails; a
single-space text yields a successful response with an empty
transcript. -/
theorem C9_empty_transcript_witness :
    ((processSegment [] (.ok none)).1 = .error .noTranscript
      ∧ (processSegment [] (.ok (some ""))).1 = .error .noTranscript)
  ∧ transcribeHandler [([], .ok (some " "))] = .ok "" := by
  have h := C9_empty_transcript_amended [] " " (by decide)
  exact ⟨⟨h.1, h.2.1⟩, h.2.2 (by decide) (by decide)⟩

/-- C10 (confirmed): the insert defaults use JS truthiness, so a parsed
`outcome_score` of 0 is stored as 50, an empty-string `outcome` is
stored as `unclear`, and the persisted score equals the parsed numeric
score exactly when that number is non-zero. -/
theorem C10_falsy_defaults (callId userId transcript : String) (a : AnalysisParsed) (q : ℚ) :
    (insertRecord callId userId transcript { a with outcome_score := .num 0 }).outcome_score
        = .num 50
  ∧ (insertRecord callId userId transcript { a with outcome := .str "" }).outcome
        = .str "unclear"
  ∧ ((insertRecord callId userId transcript { a with outcome_score := .num q }).outcome_score
        = .num q ↔ q ≠ 0) := by
  refine ⟨?_, ?_, ?_⟩
  · simp [insertRecord, jsOr, JsVal.truthy]
  · simp [insertRecord, jsOr, JsVal.truthy]
  · by_cases h : q = 0 <;> simp [insertRecord, jsOr, JsVal.truthy, h]

end SalesInsight
